import Mathlib

/-!
Verification of the outline-extraction routine `make_outline` from
`src/assets/tiles/source/make_outline.py`.

The core of that script iterates over every coordinate of an RGBA image,
classifies each opaque pixel (alpha ≠ 0) as an edge pixel when one of its
four axis-aligned neighbours is out of bounds or transparent, and copies
exactly the edge pixels into a freshly allocated transparent image of the
same dimensions.  File I/O, path handling and the colour list are outside
the modelled core.
-/

namespace Tetrominos

/-- A pixel with four 8-bit channels, as produced by `convert("RGBA")`.
Channel values are modelled as natural numbers; only the alpha channel is
inspected by the algorithm. -/
structure Pixel where
  r : Nat
  g : Nat
  b : Nat
  a : Nat
deriving DecidableEq

/-- The transparent default `(0, 0, 0, 0)` used by `Image.new("RGBA", (w, h), (0, 0, 0, 0))`. -/
def transparent : Pixel := ⟨0, 0, 0, 0⟩

/-- A decoded image: a width, a height and a pixel grid.  `pix x y` models
`pixels[x, y]`; only values at coordinates with `x < width` and `y < height`
are ever consulted by the algorithm. -/
structure Image where
  width : Nat
  height : Nat
  pix : Nat → Nat → Pixel

/-- The four axis-aligned neighbour offsets `[(-1, 0), (1, 0), (0, -1), (0, 1)]`
from the Python loop. -/
def offsets : List (Int × Int) := [(-1, 0), (1, 0), (0, -1), (0, 1)]

/-- The per-neighbour test from the Python condition
`nx < 0 or nx >= w or ny < 0 or ny >= h or pixels[nx, ny][3] == 0`. -/
def edgeTest (img : Image) (nx ny : Int) : Bool :=
  decide (nx < 0) || decide ((img.width : Int) ≤ nx) ||
  decide (ny < 0) || decide ((img.height : Int) ≤ ny) ||
  ((img.pix nx.toNat ny.toNat).a == 0)

/-- The inner `for dx, dy in [...]` loop with early `break`: the pixel at
`(x, y)` is an edge pixel if some neighbour offset passes `edgeTest`. -/
def isEdge (img : Image) (x y : Nat) : Bool :=
  offsets.any fun d => edgeTest img ((x : Int) + d.1) ((y : Int) + d.2)

/-- `Image.new("RGBA", (w, h), (0, 0, 0, 0))`: a fully transparent image. -/
def newImage (w h : Nat) : Image := ⟨w, h, fun _ _ => transparent⟩

/-- `outline_pixels[x, y] = p`: functional update of one pixel. -/
def setPix (img : Image) (x y : Nat) (p : Pixel) : Image :=
  { img with pix := fun u v => if u = x ∧ v = y then p else img.pix u v }

/-- The body of the double loop for one coordinate `c`:
skip a transparent source pixel, otherwise write the source pixel to the
output exactly when the edge test fires. -/
def processCoord (src : Image) (out : Image) (c : Nat × Nat) : Image :=
  if (src.pix c.1 c.2).a == 0 then out
  else if isEdge src c.1 c.2 then setPix out c.1 c.2 (src.pix c.1 c.2) else out

/-- The coordinates visited by `for y in range(h): for x in range(w)`. -/
def coords (w h : Nat) : List (Nat × Nat) :=
  (List.range h).flatMap fun y => (List.range w).map fun x => (x, y)

/-- The in-memory core of `make_outline`: run the double loop over all
coordinates, starting from a fresh transparent image of the source's size. -/
def make_outline (src : Image) : Image :=
  (coords src.width src.height).foldl (processCoord src) (newImage src.width src.height)

/-- Running the double loop over an arbitrary coordinate list, used to state
order-independence of the traversal. -/
def make_outline_order (src : Image) (l : List (Nat × Nat)) : Image :=
  l.foldl (processCoord src) (newImage src.width src.height)

/-- Coordinates of in-bounds pixels with non-zero alpha. -/
def opaqueCoords (img : Image) : List (Nat × Nat) :=
  (coords img.width img.height).filter fun c => (img.pix c.1 c.2).a != 0

/-- Number of in-bounds non-transparent pixels. -/
def opaqueCount (img : Image) : Nat := (opaqueCoords img).length

/-! ### Structural lemmas -/

lemma setPix_pix (img : Image) (x y : Nat) (p : Pixel) (u v : Nat) :
    (setPix img x y p).pix u v = if u = x ∧ v = y then p else img.pix u v := rfl

lemma processCoord_width (src out : Image) (c : Nat × Nat) :
    (processCoord src out c).width = out.width := by
  unfold processCoord setPix
  split <;> [rfl; split <;> rfl]

lemma processCoord_height (src out : Image) (c : Nat × Nat) :
    (processCoord src out c).height = out.height := by
  unfold processCoord setPix
  split <;> [rfl; split <;> rfl]

lemma foldl_processCoord_width (src : Image) (l : List (Nat × Nat)) (out : Image) :
    (l.foldl (processCoord src) out).width = out.width := by
  induction l generalizing out with
  | nil => rfl
  | cons c t ih => simpa [List.foldl_cons, processCoord_width] using ih (processCoord src out c)

lemma foldl_processCoord_height (src : Image) (l : List (Nat × Nat)) (out : Image) :
    (l.foldl (processCoord src) out).height = out.height := by
  induction l generalizing out with
  | nil => rfl
  | cons c t ih => simpa [List.foldl_cons, processCoord_height] using ih (processCoord src out c)

lemma make_outline_width (src : Image) : (make_outline src).width = src.width := by
  simp [make_outline, foldl_processCoord_width, newImage]

lemma make_outline_height (src : Image) : (make_outline src).height = src.height := by
  simp [make_outline, foldl_processCoord_height, newImage]

lemma mem_coords (w h : Nat) (x y : Nat) :
    (x, y) ∈ coords w h ↔ x < w ∧ y < h := by
  simp [coords, List.mem_flatMap, List.mem_map, List.mem_range]
  constructor
  · rintro ⟨b, hb, a, ha, h1, h2⟩
    omega
  · rintro ⟨hx, hy⟩
    exact ⟨y, hy, x, hx, rfl, rfl⟩

lemma processCoord_pix_ne (src out : Image) (c : Nat × Nat) (x y : Nat)
    (h : ¬(x = c.1 ∧ y = c.2)) :
    (processCoord src out c).pix x y = out.pix x y := by
  unfold processCoord
  split
  · rfl
  · split
    · simp [setPix_pix, h]
    · rfl

/-- What one full left fold of `processCoord` over a coordinate list writes at
`(x, y)`: the source pixel, exactly when `(x, y)` is visited, opaque and an
edge pixel; otherwise the accumulator is untouched there. -/
lemma foldl_processCoord_pix (src : Image) (l : List (Nat × Nat)) (out : Image) (x y : Nat) :
    (l.foldl (processCoord src) out).pix x y =
      if (x, y) ∈ l ∧ (src.pix x y).a ≠ 0 ∧ isEdge src x y = true
      then src.pix x y else out.pix x y := by
  induction l generalizing out with
  | nil => simp
  | cons c t ih =>
    obtain ⟨cx, cy⟩ := c
    rw [List.foldl_cons, ih]
    by_cases hc : x = cx ∧ y = cy
    · obtain ⟨hx, hy⟩ := hc
      subst hx; subst hy
      by_cases ha : (src.pix x y).a = 0
      · have h0 : ((src.pix x y).a == 0) = true := by simpa using ha
        simp [processCoord, h0, ha]
      · have h0 : ((src.pix x y).a == 0) = false := by simpa using ha
        by_cases he : isEdge src x y = true
        · by_cases hm : (x, y) ∈ t <;>
            simp [processCoord, h0, he, ha, hm, List.mem_cons, setPix_pix]
        · simp [processCoord, h0, he, ha, List.mem_cons]
    · rw [processCoord_pix_ne src out (cx, cy) x y hc]
      have hne : ((x, y) ∈ (cx, cy) :: t) ↔ ((x, y) ∈ t) := by
        simp only [List.mem_cons, Prod.mk.injEq]
        tauto
      simp only [hne]

/-- Pointwise characterization of the algorithm's output: the source pixel at
in-bounds opaque edge coordinates, the transparent default everywhere else. -/
lemma make_outline_pix (src : Image) (x y : Nat) :
    (make_outline src).pix x y =
      if x < src.width ∧ y < src.height ∧ (src.pix x y).a ≠ 0 ∧ isEdge src x y = true
      then src.pix x y else transparent := by
  rw [make_outline, foldl_processCoord_pix]
  simp only [mem_coords, newImage, and_assoc]

/-- The boundary classification in the words of the specification: at least one
of the four axis-aligned neighbour offsets lands outside `[0,W)×[0,H)`, or the
neighbour pixel there has alpha `0`.  Stated over natural-number coordinates of
an in-bounds pixel. -/
def boundarySpec (src : Image) (x y : Nat) : Prop :=
  (x = 0 ∨ (src.pix (x - 1) y).a = 0) ∨
  (src.width ≤ x + 1 ∨ (src.pix (x + 1) y).a = 0) ∨
  (y = 0 ∨ (src.pix x (y - 1)).a = 0) ∨
  (src.height ≤ y + 1 ∨ (src.pix x (y + 1)).a = 0)

instance (src : Image) (x y : Nat) : Decidable (boundarySpec src x y) := by
  unfold boundarySpec
  infer_instance

lemma edgeTest_eq_true (img : Image) (nx ny : Int) :
    edgeTest img nx ny = true ↔
      (nx < 0 ∨ (img.width : Int) ≤ nx ∨ ny < 0 ∨ (img.height : Int) ≤ ny ∨
        (img.pix nx.toNat ny.toNat).a = 0) := by
  simp [edgeTest, Bool.or_eq_true, decide_eq_true_eq, beq_iff_eq, or_assoc]

/-- For an in-bounds coordinate, the code's edge test agrees with the
specification's boundary classification. -/
lemma isEdge_iff_boundarySpec (src : Image) (x y : Nat)
    (hx : x < src.width) (hy : y < src.height) :
    isEdge src x y = true ↔ boundarySpec src x y := by
  have a1 : ((x : Int) + -1).toNat = x - 1 := by omega
  have a2 : ((x : Int) + 1).toNat = x + 1 := by omega
  have a3 : ((x : Int) + 0).toNat = x := by omega
  have a4 : ((y : Int) + 0).toNat = y := by omega
  have a5 : ((y : Int) + -1).toNat = y - 1 := by omega
  have a6 : ((y : Int) + 1).toNat = y + 1 := by omega
  have q1 : ((x : Int) + -1 < 0) ↔ x = 0 := by omega
  have q2 : ((src.width : Int) ≤ (x : Int) + 1) ↔ src.width ≤ x + 1 := by omega
  have q3 : ((y : Int) + -1 < 0) ↔ y = 0 := by omega
  have q4 : ((src.height : Int) ≤ (y : Int) + 1) ↔ src.height ≤ y + 1 := by omega
  have n1 : ¬((src.width : Int) ≤ (x : Int) + -1) := by omega
  have n2 : ¬((y : Int) + 0 < 0) := by omega
  have n3 : ¬((src.height : Int) ≤ (y : Int) + 0) := by omega
  have n4 : ¬((x : Int) + 1 < 0) := by omega
  have n5 : ¬((x : Int) + 0 < 0) := by omega
  have n6 : ¬((y : Int) + 1 < 0) := by omega
  have n7 : ¬((src.width : Int) ≤ (x : Int) + 0) := by omega
  have n8 : ¬((src.height : Int) ≤ (y : Int) + -1) := by omega
  simp only [isEdge, offsets, List.any_cons, List.any_nil, Bool.or_eq_true,
    edgeTest_eq_true, a1, a2, a3, a4, a5, a6,
    q1, q2, q3, q4, n1, n2, n3, n4, n5, n6, n7, n8,
    boundarySpec, Bool.false_eq_true, or_false, false_or]

/-- An output pixel has non-zero alpha exactly at in-bounds opaque edge
coordinates of the source. -/
lemma make_outline_alpha (src : Image) (x y : Nat) :
    ((make_outline src).pix x y).a ≠ 0 ↔
      (x < src.width ∧ y < src.height ∧ (src.pix x y).a ≠ 0 ∧ isEdge src x y = true) := by
  rw [make_outline_pix]
  split
  · next h => simp [h, h.2.2.1]
  · next h => simp [transparent, h]

/-- An output pixel with alpha `0` is the whole transparent default. -/
lemma make_outline_eq_transparent (src : Image) (x y : Nat)
    (h : ((make_outline src).pix x y).a = 0) :
    (make_outline src).pix x y = transparent := by
  rw [make_outline_pix] at h ⊢
  split at h
  · next hc => exact absurd h hc.2.2.1
  · next hc => exact if_neg hc

/-- Every in-bounds opaque pixel of the output is itself an edge pixel of the
output: one of its neighbours is out of bounds or transparent in the source,
and a source-transparent neighbour stays transparent in the output. -/
lemma isEdge_make_outline (src : Image) (x y : Nat)
    (h : ((make_outline src).pix x y).a ≠ 0) :
    isEdge (make_outline src) x y = true := by
  obtain ⟨hx, hy, ha, he⟩ := (make_outline_alpha src x y).mp h
  rw [isEdge, List.any_eq_true] at he ⊢
  obtain ⟨d, hd, ht⟩ := he
  refine ⟨d, hd, ?_⟩
  rw [edgeTest_eq_true] at ht ⊢
  rw [make_outline_width, make_outline_height]
  rcases ht with ht | ht | ht | ht | ht
  · exact Or.inl ht
  · exact Or.inr (Or.inl ht)
  · exact Or.inr (Or.inr (Or.inl ht))
  · exact Or.inr (Or.inr (Or.inr (Or.inl ht)))
  · refine Or.inr (Or.inr (Or.inr (Or.inr ?_)))
    rw [make_outline_pix]
    split
    · next hc => exact absurd ht hc.2.2.1
    · rfl

/-- Applying the extraction twice changes nothing: every pixel of the first
outline is still an edge pixel there, so the second pass copies all of it. -/
lemma make_outline_idem_pix (src : Image) (x y : Nat) :
    (make_outline (make_outline src)).pix x y = (make_outline src).pix x y := by
  rw [make_outline_pix (make_outline src) x y]
  split
  · rfl
  · next h =>
    rw [make_outline_width, make_outline_height] at h
    by_cases hx : x < src.width
    · by_cases hy : y < src.height
      · by_cases ha : ((make_outline src).pix x y).a = 0
        · exact (make_outline_eq_transparent src x y ha).symm
        · exact absurd (isEdge_make_outline src x y ha) (by tauto)
      · rw [make_outline_pix]
        have : ¬(x < src.width ∧ y < src.height ∧
            (src.pix x y).a ≠ 0 ∧ isEdge src x y = true) := by tauto
        simp [this]
    · rw [make_outline_pix]
      have : ¬(x < src.width ∧ y < src.height ∧
          (src.pix x y).a ≠ 0 ∧ isEdge src x y = true) := by tauto
      simp [this]

/-! ### Checked model: pixel access that fails outside the bounds

PIL's pixel access raises `IndexError` outside `[0,W)×[0,H)`.  The checked
variants below return `none` whenever such an access would be attempted, so
totality of the script is the statement that the checked run returns `some`. -/

/-- `pixels[x, y]` with PIL's bounds check: `none` models `IndexError`. -/
def getPixChecked (img : Image) (x y : Int) : Option Pixel :=
  if 0 ≤ x ∧ x < (img.width : Int) ∧ 0 ≤ y ∧ y < (img.height : Int) then
    some (img.pix x.toNat y.toNat)
  else none

/-- The neighbour test with the actual guarded access: the four bound
disjuncts short-circuit before `pixels[nx, ny]` is evaluated, exactly as
Python's `or` does. -/
def edgeTestChecked (img : Image) (nx ny : Int) : Option Bool :=
  if nx < 0 ∨ (img.width : Int) ≤ nx ∨ ny < 0 ∨ (img.height : Int) ≤ ny then some true
  else (getPixChecked img nx ny).map fun p => p.a == 0

/-- The neighbour loop with checked accesses and early exit. -/
def isEdgeChecked (img : Image) (x y : Nat) : Option Bool :=
  offsets.foldl
    (fun acc d => acc.bind fun b =>
      if b then some true
      else edgeTestChecked img ((x : Int) + d.1) ((y : Int) + d.2))
    (some false)

/-- The loop body with checked accesses. -/
def processCoordChecked (src : Image) (out : Option Image) (c : Nat × Nat) : Option Image :=
  out.bind fun o =>
    (getPixChecked src c.1 c.2).bind fun p =>
      if p.a == 0 then some o
      else (isEdgeChecked src c.1 c.2).map fun e =>
        if e then setPix o c.1 c.2 p else o

/-- The whole loop with checked accesses: `none` would mean some pixel access
of the run was out of range. -/
def make_outline_checked (src : Image) : Option Image :=
  (coords src.width src.height).foldl (processCoordChecked src)
    (some (newImage src.width src.height))

lemma edgeTestChecked_eq (img : Image) (nx ny : Int) :
    edgeTestChecked img nx ny = some (edgeTest img nx ny) := by
  unfold edgeTestChecked getPixChecked edgeTest
  split
  · next h =>
    rcases h with h | h | h | h <;> simp [h]
  · next h =>
    push_neg at h
    obtain ⟨h1, h2, h3, h4⟩ := h
    rw [if_pos ⟨by omega, by omega, by omega, by omega⟩]
    rw [decide_eq_false (by omega : ¬ nx < 0),
      decide_eq_false (by omega : ¬ (img.width : Int) ≤ nx),
      decide_eq_false (by omega : ¬ ny < 0),
      decide_eq_false (by omega : ¬ (img.height : Int) ≤ ny)]
    simp

lemma isEdgeChecked_eq (img : Image) (x y : Nat) :
    isEdgeChecked img x y = some (isEdge img x y) := by
  unfold isEdgeChecked isEdge offsets
  simp only [List.foldl_cons, List.foldl_nil, List.any_cons, List.any_nil,
    edgeTestChecked_eq, Option.some_bind]
  cases edgeTest img ((x : Int) + (-1 : Int)) ((y : Int) + (0 : Int)) <;>
    cases edgeTest img ((x : Int) + (1 : Int)) ((y : Int) + (0 : Int)) <;>
      cases edgeTest img ((x : Int) + (0 : Int)) ((y : Int) + (-1 : Int)) <;>
        cases edgeTest img ((x : Int) + (0 : Int)) ((y : Int) + (1 : Int)) <;>
          simp

lemma processCoordChecked_eq (src : Image) (o : Image) (c : Nat × Nat)
    (h1 : c.1 < src.width) (h2 : c.2 < src.height) :
    processCoordChecked src (some o) c = some (processCoord src o c) := by
  unfold processCoordChecked processCoord getPixChecked
  rw [Option.some_bind, if_pos ⟨by omega, by omega, by omega, by omega⟩]
  simp only [Int.toNat_natCast, Option.some_bind, isEdgeChecked_eq]
  split
  · rfl
  · rfl

lemma foldl_processCoordChecked (src : Image) (l : List (Nat × Nat)) (o : Image)
    (hl : ∀ c ∈ l, c.1 < src.width ∧ c.2 < src.height) :
    l.foldl (processCoordChecked src) (some o) = some (l.foldl (processCoord src) o) := by
  induction l generalizing o with
  | nil => rfl
  | cons c t ih =>
    rw [List.foldl_cons, List.foldl_cons,
      processCoordChecked_eq src o c (hl c (List.mem_cons_self c t)).1
        (hl c (List.mem_cons_self c t)).2]
    exact ih _ fun d hd => hl d (List.mem_cons_of_mem c hd)

/-- The checked run never fails and agrees with the unchecked model. -/
lemma make_outline_checked_eq (src : Image) :
    make_outline_checked src = some (make_outline src) := by
  unfold make_outline_checked make_outline
  exact foldl_processCoordChecked src _ _ fun c hc => by
    obtain ⟨c1, c2⟩ := c
    exact (mem_coords src.width src.height c1 c2).mp hc

/-! ### Concrete example images used as witnesses -/

/-- A solid 3×3 image: every pixel opaque red. -/
def solid3 : Image := ⟨3, 3, fun _ _ => ⟨200, 10, 10, 255⟩⟩

/-- A 3×3 image whose only non-transparent pixel is the centre; all other
pixels are the transparent default. -/
def center3 : Image := ⟨3, 3, fun x y => if x = 1 ∧ y = 1 then ⟨255, 0, 0, 255⟩ else transparent⟩

/-- A 3×3 image whose only pixel with non-zero alpha is the centre, but whose
corner pixel `(0, 0)` carries non-zero colour channels under alpha `0`. -/
def junk3 : Image :=
  ⟨3, 3, fun x y =>
    if x = 1 ∧ y = 1 then ⟨255, 0, 0, 255⟩
    else if x = 0 ∧ y = 0 then ⟨7, 7, 7, 0⟩
    else transparent⟩

/-- The empty 0×0 image. -/
def empty0 : Image := ⟨0, 0, fun _ _ => transparent⟩

/-- A 2×1 image with both pixels opaque. -/
def bar2 : Image := ⟨2, 1, fun _ _ => ⟨1, 2, 3, 9⟩⟩

/-! ### Claim theorems -/

/-- C1: for every in-bounds coordinate, a source pixel with alpha 0 yields the
transparent default; an opaque source pixel is copied unchanged exactly when
one of the four axis-aligned neighbour offsets lands out of bounds or on an
alpha-0 pixel, and otherwise the output stays transparent. -/
theorem C1_boundary_copy_rule (src : Image) (x y : Nat)
    (hx : x < src.width) (hy : y < src.height) :
    ((src.pix x y).a = 0 → (make_outline src).pix x y = transparent) ∧
    ((src.pix x y).a ≠ 0 → boundarySpec src x y →
      (make_outline src).pix x y = src.pix x y) ∧
    ((src.pix x y).a ≠ 0 → ¬ boundarySpec src x y →
      (make_outline src).pix x y = transparent) := by
  refine ⟨fun h0 => ?_, fun ha hb => ?_, fun ha hnb => ?_⟩
  · rw [make_outline_pix]
    exact if_neg fun hc => hc.2.2.1 h0
  · rw [make_outline_pix]
    exact if_pos ⟨hx, hy, ha, (isEdge_iff_boundarySpec src x y hx hy).mpr hb⟩
  · rw [make_outline_pix]
    exact if_neg fun hc =>
      hnb ((isEdge_iff_boundarySpec src x y hx hy).mp hc.2.2.2)

/-- Witness for C1 on the concrete 2×1 opaque image `bar2` at `(0, 0)`. -/
theorem C1_boundary_copy_rule_witness :
    (bar2.pix 0 0).a ≠ 0 ∧ boundarySpec bar2 0 0 ∧
      (make_outline bar2).pix 0 0 = bar2.pix 0 0 :=
  ⟨by decide, by decide,
    (C1_boundary_copy_rule bar2 0 0 (by decide) (by decide)).2.1 (by decide) (by decide)⟩

/-- C2: every output pixel is either the transparent default or the source
pixel at the same coordinate; no blended or channel-modified value occurs. -/
theorem C2_default_or_source (src : Image) (x y : Nat) :
    (make_outline src).pix x y = transparent ∨
      (make_outline src).pix x y = src.pix x y := by
  rw [make_outline_pix]
  split
  · exact Or.inr rfl
  · exact Or.inl rfl

/-- C3: the output has exactly the width and the height of the source. -/
theorem C3_dimension_preservation (src : Image) :
    (make_outline src).width = src.width ∧ (make_outline src).height = src.height :=
  ⟨make_outline_width src, make_outline_height src⟩

/-- C4: non-transparent output pixels form a subset of the non-transparent
source pixels, and every alpha-0 source pixel maps to the full transparent
default `(0,0,0,0)`. -/
theorem C4_subset_and_transparency (src : Image) :
    (∀ x y, ((make_outline src).pix x y).a ≠ 0 → (src.pix x y).a ≠ 0) ∧
    (∀ x y, (src.pix x y).a = 0 → (make_outline src).pix x y = transparent) := by
  constructor
  · intro x y h
    exact ((make_outline_alpha src x y).mp h).2.2.1
  · intro x y h0
    rw [make_outline_pix]
    exact if_neg fun hc => hc.2.2.1 h0

/-- Witness for C4: the opaque corner of `solid3` stays opaque-compatible, and
the alpha-0 corner of `junk3` (which carries colour junk) maps to the
transparent default. -/
theorem C4_subset_and_transparency_witness :
    ((solid3.pix 0 0).a ≠ 0 ∧ (junk3.pix 0 0).a = 0) ∧
      (make_outline junk3).pix 0 0 = transparent :=
  ⟨⟨(C4_subset_and_transparency solid3).1 0 0 (by decide), by decide⟩,
    (C4_subset_and_transparency junk3).2 0 0 (by decide)⟩

/-- C5 counterexample: `solid3` is a shape thicker than one pixel (its centre
`(1,1)` is opaque with all four neighbours in bounds and opaque), yet the
second application of the extraction does not yield a strictly smaller set of
non-transparent pixels than the first: both have exactly 8. -/
theorem C5_counterexample :
    ((solid3.pix 1 1).a ≠ 0 ∧
      0 < 1 ∧ 1 + 1 < solid3.width ∧ 0 < 1 ∧ 1 + 1 < solid3.height ∧
      (solid3.pix 0 1).a ≠ 0 ∧ (solid3.pix 2 1).a ≠ 0 ∧
      (solid3.pix 1 0).a ≠ 0 ∧ (solid3.pix 1 2).a ≠ 0) ∧
    opaqueCount (make_outline solid3) = 8 ∧
    opaqueCount (make_outline (make_outline solid3)) = 8 ∧
    ¬ opaqueCount (make_outline (make_outline solid3)) <
        opaqueCount (make_outline solid3) := by
  decide

/-- C5 (amended): the second application of the extraction never changes
anything — the extraction is idempotent, pixelwise and in the count of
non-transparent pixels, for every source image. -/
theorem C5_second_application_same (src : Image) :
    (∀ x y, (make_outline (make_outline src)).pix x y = (make_outline src).pix x y) ∧
    opaqueCount (make_outline (make_outline src)) = opaqueCount (make_outline src) := by
  refine ⟨make_outline_idem_pix src, ?_⟩
  unfold opaqueCount opaqueCoords
  rw [make_outline_width (make_outline src), make_outline_height (make_outline src)]
  exact congrArg List.length
    (List.filter_congr fun c _ => by rw [make_outline_idem_pix])

/-- C6: on a fully opaque rectangle with both sides at least 3, exactly the
outermost ring survives and every interior pixel of the output is the
transparent default. -/
theorem C6_solid_rectangle (src : Image)
    (h3w : 3 ≤ src.width) (h3h : 3 ≤ src.height)
    (hall : ∀ x y, x < src.width → y < src.height → (src.pix x y).a ≠ 0)
    (x y : Nat) (hx : x < src.width) (hy : y < src.height) :
    (((make_outline src).pix x y).a ≠ 0 ↔
      (x = 0 ∨ x = src.width - 1 ∨ y = 0 ∨ y = src.height - 1)) ∧
    ((x ≠ 0 ∧ x ≠ src.width - 1 ∧ y ≠ 0 ∧ y ≠ src.height - 1) →
      (make_outline src).pix x y = transparent) := by
  have hb : boundarySpec src x y ↔
      (x = 0 ∨ x = src.width - 1 ∨ y = 0 ∨ y = src.height - 1) := by
    constructor
    · rintro ((h | h) | (h | h) | (h | h) | (h | h))
      · exact Or.inl h
      · rcases Nat.eq_zero_or_pos x with h0 | h0
        · exact Or.inl h0
        · exact absurd h (hall (x - 1) y (by omega) hy)
      · exact Or.inr (Or.inl (by omega))
      · by_cases hxw : x + 1 < src.width
        · exact absurd h (hall (x + 1) y hxw hy)
        · exact Or.inr (Or.inl (by omega))
      · exact Or.inr (Or.inr (Or.inl h))
      · rcases Nat.eq_zero_or_pos y with h0 | h0
        · exact Or.inr (Or.inr (Or.inl h0))
        · exact absurd h (hall x (y - 1) hx (by omega))
      · exact Or.inr (Or.inr (Or.inr (by omega)))
      · by_cases hyh : y + 1 < src.height
        · exact absurd h (hall x (y + 1) hx hyh)
        · exact Or.inr (Or.inr (Or.inr (by omega)))
    · rintro (h | h | h | h)
      · exact Or.inl (Or.inl h)
      · exact Or.inr (Or.inl (Or.inl (by omega)))
      · exact Or.inr (Or.inr (Or.inl (Or.inl h)))
      · exact Or.inr (Or.inr (Or.inr (Or.inl (by omega))))
  have main : ((make_outline src).pix x y).a ≠ 0 ↔
      (x = 0 ∨ x = src.width - 1 ∨ y = 0 ∨ y = src.height - 1) := by
    rw [make_outline_alpha]
    constructor
    · rintro ⟨-, -, -, he⟩
      exact hb.mp ((isEdge_iff_boundarySpec src x y hx hy).mp he)
    · intro h
      exact ⟨hx, hy, hall x y hx hy,
        (isEdge_iff_boundarySpec src x y hx hy).mpr (hb.mpr h)⟩
  refine ⟨main, fun hint => ?_⟩
  apply make_outline_eq_transparent
  by_contra hA
  rcases main.mp hA with h | h | h | h <;> tauto

/-- Witness for C6: the centre of `solid3` comes out as the transparent
default, and its corner keeps non-zero alpha. -/
theorem C6_solid_rectangle_witness :
    (make_outline solid3).pix 1 1 = transparent ∧
      ((make_outline solid3).pix 0 0).a ≠ 0 :=
  ⟨(C6_solid_rectangle solid3 (by decide) (by decide)
      (fun x y hx hy => by simp [solid3]) 1 1 (by decide) (by decide)).2
      (by decide),
    (C6_solid_rectangle solid3 (by decide) (by decide)
      (fun x y hx hy => by simp [solid3]) 0 0 (by decide) (by decide)).1.mpr
      (Or.inl rfl)⟩

/-- C7 counterexample: in `junk3` only the centre pixel has non-zero alpha,
yet the output is not identical to the input: the alpha-0 corner `(0, 0)`
carries colour junk `(7, 7, 7, 0)` in the source and becomes the transparent
default `(0, 0, 0, 0)` in the output. -/
theorem C7_counterexample :
    (∀ x, x < junk3.width → ∀ y, y < junk3.height →
      ((junk3.pix x y).a ≠ 0 ↔ (x = 1 ∧ y = 1))) ∧
    (make_outline junk3).pix 0 0 ≠ junk3.pix 0 0 := by
  decide

/-- C7 (amended): for a 3×3 image whose centre pixel has non-zero alpha and
whose other pixels are exactly the transparent default, the extraction
produces an output identical to the input on every in-bounds coordinate,
with the same dimensions. -/
theorem C7_isolated_center (src : Image)
    (hw : src.width = 3) (hh : src.height = 3)
    (hc : (src.pix 1 1).a ≠ 0)
    (ht : ∀ x y, x < 3 → y < 3 → ¬(x = 1 ∧ y = 1) → src.pix x y = transparent) :
    (make_outline src).width = src.width ∧
    (make_outline src).height = src.height ∧
    ∀ x y, x < 3 → y < 3 → (make_outline src).pix x y = src.pix x y := by
  refine ⟨make_outline_width src, make_outline_height src, fun x y hx hy => ?_⟩
  by_cases hcen : x = 1 ∧ y = 1
  · obtain ⟨rfl, rfl⟩ := hcen
    rw [make_outline_pix]
    refine if_pos ⟨by omega, by omega, hc, ?_⟩
    rw [isEdge_iff_boundarySpec src 1 1 (by omega) (by omega)]
    have h01 : src.pix 0 1 = transparent :=
      ht 0 1 (by omega) (by omega) (by simp)
    exact Or.inl (Or.inr (by rw [show (1 : Nat) - 1 = 0 from rfl, h01]; rfl))
  · have htr : src.pix x y = transparent := ht x y hx hy hcen
    rw [make_outline_pix, if_neg fun hcond => hcond.2.2.1 (by rw [htr]; rfl), htr]

/-- Witness for C7 (amended) on the concrete image `center3`. -/
theorem C7_isolated_center_witness :
    (make_outline center3).pix 1 1 = center3.pix 1 1 ∧
      (make_outline center3).pix 0 0 = center3.pix 0 0 := by
  have h := C7_isolated_center center3 (by decide) (by decide) (by decide)
    (fun x y hx hy hne => by simp [center3, hne])
  exact ⟨h.2.2 1 1 (by decide) (by decide), h.2.2 0 0 (by decide) (by decide)⟩

/-- C8: the run with PIL-checked pixel accesses never fails — every access is
guarded by the bounds disjuncts — and a 0×0 source yields a 0×0 fully
transparent output. -/
theorem C8_totality (src : Image) :
    make_outline_checked src = some (make_outline src) ∧
    (src.width = 0 → src.height = 0 →
      (make_outline src).width = 0 ∧ (make_outline src).height = 0 ∧
        ∀ x y, (make_outline src).pix x y = transparent) := by
  refine ⟨make_outline_checked_eq src, fun h0w h0h => ?_⟩
  refine ⟨by rw [make_outline_width, h0w], by rw [make_outline_height, h0h],
    fun x y => ?_⟩
  rw [make_outline_pix]
  exact if_neg fun hc => by omega

/-- Witness for C8 on the empty 0×0 image. -/
theorem C8_totality_witness :
    make_outline_checked empty0 = some (make_outline empty0) ∧
      ((make_outline empty0).width = 0 ∧ (make_outline empty0).height = 0 ∧
        ∀ x y, (make_outline empty0).pix x y = transparent) :=
  ⟨(C8_totality empty0).1, (C8_totality empty0).2 (by decide) (by decide)⟩

/-- C9: the result is deterministic and order-independent: running the loop
over any enumeration of the coordinate grid gives the same image pointwise,
and extensionally equal sources give equal outputs. -/
theorem C9_deterministic_order_independent (src : Image) (l : List (Nat × Nat))
    (hl : ∀ c, c ∈ l ↔ c ∈ coords src.width src.height) :
    (∀ x y, (make_outline_order src l).pix x y = (make_outline src).pix x y) ∧
    (∀ src2 : Image, src.width = src2.width → src.height = src2.height →
      (∀ u v, src.pix u v = src2.pix u v) →
      make_outline src = make_outline src2) := by
  constructor
  · intro x y
    rw [make_outline_order, make_outline, foldl_processCoord_pix,
      foldl_processCoord_pix]
    simp only [hl (x, y)]
  · intro src2 hw hh hp
    have hps : src.pix = src2.pix := funext fun u => funext fun v => hp u v
    obtain ⟨w1, h1, p1⟩ := src
    obtain ⟨w2, h2, p2⟩ := src2
    cases hw
    cases hh
    cases hps
    rfl

/-- Witness for C9: traversing `bar2`'s two coordinates in reversed order
gives the same pixel at `(0, 0)`. -/
theorem C9_deterministic_order_independent_witness :
    (make_outline_order bar2 [(1, 0), (0, 0)]).pix 0 0 = (make_outline bar2).pix 0 0 :=
  (C9_deterministic_order_independent bar2 [(1, 0), (0, 0)]
    (by
      intro c
      rw [show coords bar2.width bar2.height = [(0, 0), (1, 0)] from rfl]
      simp only [List.mem_cons, List.not_mem_nil, or_false]
      tauto)).1 0 0

/-- C10: a source with at least one in-bounds opaque pixel yields an output
with at least one non-transparent pixel: an opaque pixel of minimal `y` has
its upper neighbour out of bounds or transparent, hence is copied. -/
theorem C10_nonempty_output (src : Image)
    (hw : 1 ≤ src.width) (hh : 1 ≤ src.height)
    (hne : ∃ x y, x < src.width ∧ y < src.height ∧ (src.pix x y).a ≠ 0) :
    ∃ x y, x < src.width ∧ y < src.height ∧ ((make_outline src).pix x y).a ≠ 0 := by
  classical
  obtain ⟨x0, y0, hx0, hy0, ha0⟩ := hne
  have hex : ∃ y, ∃ x, x < src.width ∧ (src.pix x y).a ≠ 0 := ⟨y0, x0, hx0, ha0⟩
  let ym := Nat.find hex
  obtain ⟨xm, hxm, ham⟩ : ∃ x, x < src.width ∧ (src.pix x ym).a ≠ 0 :=
    Nat.find_spec hex
  have hymle : ym ≤ y0 := Nat.find_min' hex ⟨x0, hx0, ha0⟩
  have hymlt : ym < src.height := lt_of_le_of_lt hymle hy0
  refine ⟨xm, ym, hxm, hymlt, ?_⟩
  rw [make_outline_alpha]
  refine ⟨hxm, hymlt, ham, ?_⟩
  rw [isEdge_iff_boundarySpec src xm ym hxm hymlt]
  rcases Nat.eq_zero_or_pos ym with h0 | h0
  · exact Or.inr (Or.inr (Or.inl (Or.inl h0)))
  · have hnotp : ¬ ∃ x, x < src.width ∧ (src.pix x (ym - 1)).a ≠ 0 :=
      Nat.find_min hex (by omega)
    have hza : (src.pix xm (ym - 1)).a = 0 := by
      by_contra hzz
      exact hnotp ⟨xm, hxm, hzz⟩
    exact Or.inr (Or.inr (Or.inl (Or.inr hza)))

/-- Witness for C10 on `center3`, whose centre pixel is opaque. -/
theorem C10_nonempty_output_witness :
    ∃ x y, x < center3.width ∧ y < center3.height ∧
      ((make_outline center3).pix x y).a ≠ 0 :=
  C10_nonempty_output center3 (by decide) (by decide) ⟨1, 1, by decide⟩

end Tetrominos
